import Mathlib

/-!
Shallow embedding of the consensused compute-raft state machine of
`src/compute_raft.rs` (ABlockOfficial/Network), together with theorems
checking the natural-language specification against it.

Modelling conventions:
* `BTreeMap<String, _>` is embedded as its ascending-key entry list
  (`SMap`), with sortedness (`MSorted`) carried as a hypothesis where a
  claim depends on iteration order.
* `u64`/`usize` are embedded as `Nat`; the one place a narrowing cast
  occurs (`b_num as u32`) is embedded as `% 2^32`.
* Panics (`unwrap`) are embedded as `Option`-valued results (`none` =
  panic); fallible deserialization of committed bytes is embedded by
  representing a committed payload as `Option (key, item)`.
-/

set_option maxHeartbeats 1000000
set_option maxRecDepth 8192

namespace ComputeRaftModel

/-- Modelled from the spec: naom's `Transaction` lives outside this
repository.  Per the spec (§3, §9), the core is opaque to a transaction
except for its input references, each naming a previous transaction
output by hash. -/
structure Transaction where
  inputs : List String
deriving DecidableEq

/-- Modelled from the spec: naom's `Transaction::new()` — a transaction
with no input references. -/
def Transaction.new : Transaction := ⟨[]⟩

/-- Modelled from the spec: naom's `get_inputs_previous_out_hash` yields
every previous-output hash referenced by the given transactions, in
order. -/
def getInputsPreviousOutHash (txs : List Transaction) : List String :=
  (txs.map Transaction.inputs).flatten

/-- Embedding of `BTreeMap<String, α>`, embedded as its ascending-key entry list. -/
abbrev SMap (α : Type) := List (String × α)

/-- The sortedness invariant of the `BTreeMap` embedding: keys strictly
ascending. -/
abbrev MSorted {α : Type} (m : SMap α) : Prop :=
  List.Pairwise (fun p q => p.1 < q.1) m

/-- Embedding of `BTreeMap::contains_key`. -/
def mcontains {α : Type} (m : SMap α) (k : String) : Bool :=
  m.any (fun p => p.1 == k)

/-- Embedding of `BTreeMap::get`. -/
def mlookup {α : Type} (m : SMap α) (k : String) : Option α :=
  match m with
  | [] => none
  | p :: rest => if p.1 = k then some p.2 else mlookup rest k

/-- Embedding of `BTreeMap::insert`, keeping the list sorted (overwrites on an equal
key). -/
def minsert {α : Type} (k : String) (v : α) : SMap α → SMap α
  | [] => [(k, v)]
  | p :: rest =>
    if k < p.1 then (k, v) :: p :: rest
    else if k = p.1 then (k, v) :: rest
    else p :: minsert k v rest

/-- Embedding of `BTreeMap::remove` (the returned value is recovered by `mlookup`
where needed). -/
def merase {α : Type} (m : SMap α) (k : String) : SMap α :=
  m.filter (fun p => !(p.1 == k))

/-- Embedding of `BTreeMap::append(&mut other)`: move every entry of `other` in,
overwriting entries of `self` with an equal key. -/
def mappend {α : Type} (m other : SMap α) : SMap α :=
  other.foldl (fun acc p => minsert p.1 p.2 acc) m

/-!  ### `ComputeConsensused::find_invalid_new_txs`  (lines 529–551)  -/

/-- The inner input loop of `find_invalid_new_txs`: claim every input of
one candidate (`utxo_set.contains_key(hash_in) && removed_all.insert(hash_in)`);
on the first failing input roll the partial claims back (embedded by
returning `none` and letting the caller keep the pre-call claim set). -/
def tryClaimInputs (utxo : SMap Transaction) : List String → List String → Option (List String)
  | claimed, [] => some claimed
  | claimed, h :: rest =>
    if mcontains utxo h = true ∧ h ∉ claimed then tryClaimInputs utxo (h :: claimed) rest
    else none

/-- The outer candidate loop of `find_invalid_new_txs`. -/
def findInvalidGo (utxo : SMap Transaction) : List String → SMap Transaction → List String
  | _, [] => []
  | claimed, p :: rest =>
    match tryClaimInputs utxo claimed (getInputsPreviousOutHash [p.2]) with
    | some claimed2 => findInvalidGo utxo claimed2 rest
    | none => p.1 :: findInvalidGo utxo claimed rest

/-- Embedding of `ComputeConsensused::find_invalid_new_txs`: the hashes of the
candidates whose inputs cannot be consistently claimed against
`utxo_set` within this call. -/
def find_invalid_new_txs (utxo : SMap Transaction) (newTxs : SMap Transaction) : List String :=
  findInvalidGo utxo [] newTxs

/-!  The greedy double-spend resolver as the spec words it (§4.D.6): a
candidate is valid iff its inputs are pairwise distinct, each resolves
in the UTXO set, and none was already claimed by an earlier non-invalid
candidate; a valid candidate claims all its inputs, an invalid one
claims nothing.  -/

/-- Spec-side validity of one candidate given the inputs already
claimed. -/
def specTxValid (utxo : SMap Transaction) (claimed inputs : List String) : Prop :=
  inputs.Nodup ∧ ∀ h ∈ inputs, mcontains utxo h = true ∧ h ∉ claimed

instance (utxo : SMap Transaction) (claimed inputs : List String) :
    Decidable (specTxValid utxo claimed inputs) := by
  unfold specTxValid; infer_instance

/-- Spec-side greedy resolver loop. -/
def greedyGo (utxo : SMap Transaction) : List String → SMap Transaction → List String
  | _, [] => []
  | claimed, p :: rest =>
    if specTxValid utxo claimed p.2.inputs then
      greedyGo utxo (p.2.inputs.reverse ++ claimed) rest
    else p.1 :: greedyGo utxo claimed rest

/-- The greedy double-spend resolver of the spec, over the candidates in
ascending key order. -/
def greedyResolver (utxo : SMap Transaction) (newTxs : SMap Transaction) : List String :=
  greedyGo utxo [] newTxs

theorem getInputs_single (t : Transaction) : getInputsPreviousOutHash [t] = t.inputs := by
  simp [getInputsPreviousOutHash]

theorem specTxValid_cons (utxo : SMap Transaction) (claimed : List String) (h : String)
    (rest : List String) :
    specTxValid utxo claimed (h :: rest) ↔
      (mcontains utxo h = true ∧ h ∉ claimed) ∧ specTxValid utxo (h :: claimed) rest := by
  unfold specTxValid
  constructor
  · rintro ⟨hnd, hall⟩
    obtain ⟨hh, hrest⟩ := List.nodup_cons.mp hnd
    have hmem := hall h (List.mem_cons_self h rest)
    refine ⟨hmem, hrest, ?_⟩
    intro x hx
    have hx1 := hall x (List.mem_cons_of_mem _ hx)
    refine ⟨hx1.1, ?_⟩
    intro hx2
    rcases List.mem_cons.mp hx2 with hxe | hx3
    · exact hh (hxe ▸ hx)
    · exact hx1.2 hx3
  · rintro ⟨⟨hch, hcl⟩, hnd, hall⟩
    refine ⟨List.nodup_cons.mpr ⟨?_, hnd⟩, ?_⟩
    · intro hmem
      exact (hall h hmem).2 (List.mem_cons_self h claimed)
    · intro x hx
      rcases List.mem_cons.mp hx with hxe | hx2
      · exact hxe ▸ ⟨hch, hcl⟩
      · have hx1 := hall x hx2
        exact ⟨hx1.1, fun hc => hx1.2 (List.mem_cons_of_mem _ hc)⟩

theorem tryClaimInputs_eq (utxo : SMap Transaction) :
    ∀ (inputs claimed : List String),
      tryClaimInputs utxo claimed inputs =
        if specTxValid utxo claimed inputs then some (inputs.reverse ++ claimed) else none := by
  intro inputs
  induction inputs with
  | nil =>
    intro claimed
    rw [tryClaimInputs, if_pos ⟨List.nodup_nil, by simp⟩]
    simp
  | cons h rest ih =>
    intro claimed
    rw [tryClaimInputs]
    by_cases hc : mcontains utxo h = true ∧ h ∉ claimed
    · rw [if_pos hc, ih (h :: claimed)]
      by_cases hv : specTxValid utxo (h :: claimed) rest
      · rw [if_pos hv, if_pos ((specTxValid_cons utxo claimed h rest).mpr ⟨hc, hv⟩)]
        simp

      · rw [if_neg hv, if_neg (fun hco => hv ((specTxValid_cons utxo claimed h rest).mp hco).2)]
    · rw [if_neg hc, if_neg (fun hco => hc ((specTxValid_cons utxo claimed h rest).mp hco).1)]

theorem findInvalidGo_eq (utxo : SMap Transaction) :
    ∀ (newTxs : SMap Transaction) (claimed : List String),
      findInvalidGo utxo claimed newTxs = greedyGo utxo claimed newTxs := by
  intro newTxs
  induction newTxs with
  | nil => intro claimed; rfl
  | cons p rest ih =>
    intro claimed
    rw [findInvalidGo, greedyGo, tryClaimInputs_eq, getInputs_single]
    by_cases hv : specTxValid utxo claimed p.2.inputs
    · rw [if_pos hv, if_pos hv]
      exact ih _
    · rw [if_neg hv, if_neg hv, ih]

/-- Claim C1: `find_invalid_new_txs` returns exactly the list of hashes
computed by the greedy double-spend resolver of the spec: iterating the
candidates in ascending key order, a candidate is marked invalid iff one
of its inputs is absent from `utxo_set` or was already claimed in this
call, and an invalid candidate releases all inputs it had tentatively
claimed.  `utxo_set` and the candidate set are inputs of the pure
embedded function and are not modified. -/
theorem find_invalid_new_txs_eq_greedy_resolver :
    ∀ (utxo newTxs : SMap Transaction),
      find_invalid_new_txs utxo newTxs = greedyResolver utxo newTxs := by
  intro utxo newTxs
  exact findInvalidGo_eq utxo newTxs []

/-!  ### The consensused data model (`compute_raft.rs`, lines 20–109)  -/

/-- Embedding of `BlockStoredInfo` (`interfaces.rs`, shape restated by the spec §3). -/
structure BlockStoredInfo where
  block_hash : String
  block_num : Nat
  mining_transactions : SMap Transaction
deriving DecidableEq

/-- Embedding of `ComputeRaftItem`: item serialized into `RaftData` and processed by
raft. -/
inductive ComputeRaftItem where
  | FirstBlock : SMap Transaction → ComputeRaftItem
  | Block : BlockStoredInfo → ComputeRaftItem
  | Transactions : SMap Transaction → ComputeRaftItem
  | DruidTransactions : List (SMap Transaction) → ComputeRaftItem
deriving DecidableEq

/-- Embedding of `ComputeRaftKey`: key serialized into `RaftData`. -/
structure ComputeRaftKey where
  proposer_id : Nat
  proposal_id : Nat
deriving DecidableEq

/-- Embedding of `CommittedItem`: committed item to process. -/
inductive CommittedItem where
  | Transactions
  | FirstBlock
  | Block
deriving DecidableEq

/-- Embedding of `AccumulatingBlockStoredInfo`: accumulated previous block info. -/
inductive AccumulatingBlockStoredInfo where
  | FirstBlock : SMap Transaction → AccumulatingBlockStoredInfo
  | Block : BlockStoredInfo → AccumulatingBlockStoredInfo
deriving DecidableEq

/-- Modelled from the spec: naom's `BlockHeader`, of which the core uses
`previous_hash`, `b_num` and `time` (§4.D.5). -/
structure BlockHeader where
  previous_hash : Option String
  b_num : Nat
  time : Nat
deriving DecidableEq

/-- Modelled from the spec: naom's `Block`, of which the core uses the
header and the transaction-hash list. -/
structure Block where
  header : BlockHeader
  transactions : List String
deriving DecidableEq

/-- Modelled from the spec: naom's `Block::new()` — empty header, empty
transaction list. -/
def Block.new : Block := ⟨⟨none, 0, 0⟩, []⟩

/-- The vote accumulator `current_block_stored_info` is a
`BTreeMap<Vec<u8>, (AccumulatingBlockStoredInfo, BTreeSet<u64>)>` keyed
by the SHA3-256 digest of the serialized payload.  The digest of a
canonical serialization identifies the payload, so the accumulator is
embedded keyed by the payload itself; the (digest-determined, hence
unmodellable) entry order is embedded as insertion order, and every
theorem that could depend on a tie between equally-voted entries carries
a uniqueness hypothesis instead. -/
abbrev VoteAccumulator := List (AccumulatingBlockStoredInfo × List Nat)

/-- Embedding of `BTreeSet<u64>::insert` on a vote set embedded as a duplicate-free
list. -/
def setInsert (x : Nat) (s : List Nat) : List Nat :=
  if x ∈ s then s else s ++ [x]

/-- All fields of `ComputeConsensused`. -/
structure ComputeConsensused where
  unanimous_majority : Nat
  sufficient_majority : Nat
  tx_pool : SMap Transaction
  tx_druid_pool : List (SMap Transaction)
  tx_current_block_previous_hash : Option String
  tx_current_block_num : Option Nat
  current_block : Option Block
  current_block_tx : SMap Transaction
  utxo_set : SMap Transaction
  current_block_stored_info : VoteAccumulator
deriving DecidableEq

/-- Embedding of `ComputeConsensused::default()` with the two majorities set as in
`ComputeRaft::new` (lines 141–145): `unanimous_majority = peers_len`,
`sufficient_majority = peers_len / 2 + 1`. -/
def ComputeConsensused.init (peersLen : Nat) : ComputeConsensused :=
  { unanimous_majority := peersLen
    sufficient_majority := peersLen / 2 + 1
    tx_pool := []
    tx_druid_pool := []
    tx_current_block_previous_hash := none
    tx_current_block_num := none
    current_block := none
    current_block_tx := []
    utxo_set := []
    current_block_stored_info := [] }

/-- Embedding of `ComputeConsensused::is_first_block` (lines 553–556). -/
def ComputeConsensused.is_first_block (c : ComputeConsensused) : Bool :=
  c.tx_current_block_num.isNone

/-- Embedding of `ComputeConsensused::is_current_block` (lines 558–565). -/
def ComputeConsensused.is_current_block (c : ComputeConsensused) (block_num : Nat) : Bool :=
  match c.tx_current_block_num with
  | some cur => block_num == cur
  | none => false

/-- Embedding of `ComputeConsensused::append_current_block_stored_info`
(lines 609–623): record one proposer id under the committed payload. -/
def appendCurrentBlockStoredInfo (key : ComputeRaftKey) (block : AccumulatingBlockStoredInfo) :
    VoteAccumulator → VoteAccumulator
  | [] => [(block, [key.proposer_id])]
  | e :: rest =>
    if e.1 = block then (e.1, setInsert key.proposer_id e.2) :: rest
    else e :: appendCurrentBlockStoredInfo key block rest

/-- Embedding of `ComputeConsensused::append_first_block_info` (lines 592–602). -/
def ComputeConsensused.append_first_block_info (c : ComputeConsensused) (key : ComputeRaftKey)
    (utxo_set : SMap Transaction) : ComputeConsensused :=
  let acc := appendCurrentBlockStoredInfo key (AccumulatingBlockStoredInfo.FirstBlock utxo_set)
    c.current_block_stored_info
  { c with current_block_stored_info := acc }

/-- Embedding of `ComputeConsensused::append_block_stored_info` (lines 604–607). -/
def ComputeConsensused.append_block_stored_info (c : ComputeConsensused) (key : ComputeRaftKey)
    (block : BlockStoredInfo) : ComputeConsensused :=
  let acc := appendCurrentBlockStoredInfo key (AccumulatingBlockStoredInfo.Block block)
    c.current_block_stored_info
  { c with current_block_stored_info := acc }

/-- Embedding of `ComputeConsensused::max_agreeing_block_stored_info`
(lines 583–590): the maximal vote count, `0` when empty. -/
def ComputeConsensused.max_agreeing_block_stored_info (c : ComputeConsensused) : Nat :=
  (c.current_block_stored_info.map (fun v => v.2.length)).foldr max 0

/-- Embedding of `ComputeConsensused::has_block_stored_info_ready` (lines 572–581). -/
def ComputeConsensused.has_block_stored_info_ready (c : ComputeConsensused) : Bool :=
  let threshold := if c.is_first_block then c.unanimous_majority else c.sufficient_majority
  decide (threshold ≤ c.max_agreeing_block_stored_info)

/-- Rust's `Iterator::max_by_key` over the accumulator: the last entry
with a maximal vote count (per the embedded entry order, see
`VoteAccumulator`). -/
def maxByVoteLen : Option (AccumulatingBlockStoredInfo × List Nat) → VoteAccumulator →
    Option (AccumulatingBlockStoredInfo × List Nat)
  | acc, [] => acc
  | none, p :: rest => maxByVoteLen (some p) rest
  | some q, p :: rest => maxByVoteLen (some (if q.2.length ≤ p.2.length then p else q)) rest

/-- Embedding of `ComputeConsensused::apply_ready_block_stored_info` (lines 625–638),
with `take_ready_block_stored_info` (lines 640–649) inlined: take the
most-voted payload, reset the accumulator, and apply the payload.  The
`none` branch embeds the `unwrap` panic on an empty accumulator; it is
unreachable from `received_commit`, which always appends a vote first. -/
def ComputeConsensused.apply_ready_block_stored_info (c : ComputeConsensused) :
    ComputeConsensused :=
  match maxByVoteLen none c.current_block_stored_info with
  | none => c
  | some (AccumulatingBlockStoredInfo.FirstBlock utxo_set, _) =>
    { c with tx_current_block_num := some 0
             utxo_set := utxo_set
             current_block_stored_info := [] }
  | some (AccumulatingBlockStoredInfo.Block info, _) =>
    { c with tx_current_block_previous_hash := some info.block_hash
             tx_current_block_num := some (info.block_num + 1)
             utxo_set := mappend c.utxo_set info.mining_transactions
             current_block_stored_info := [] }

/-!  ### The `ComputeRaft` node state and `received_commit`
(lines 82–109 and 186–252)  -/

/-- The fields of `ComputeRaft` touched by the state machine (the raft
adapter, timers and addresses are external plumbing). -/
structure ComputeRaftState where
  peer_id : Nat
  consensused : ComputeConsensused
  local_tx_pool : SMap Transaction
  local_tx_druid_pool : List (SMap Transaction)
  last_block_stored_infos : List BlockStoredInfo
  proposed_in_flight : List (ComputeRaftKey × ComputeRaftItem)
  proposed_tx_pool_len : Nat
  proposed_tx_pool_len_max : Nat
  proposed_and_consensused_tx_pool_len_max : Nat
  proposed_last_id : Nat
deriving DecidableEq

/-- A committed raft payload: the bytes are embedded by their parse
result, so a byte sequence that does not deserialize as a
`(ComputeRaftKey, ComputeRaftItem)` pair is `none`. -/
abbrev RaftData := Option (ComputeRaftKey × ComputeRaftItem)

/-- Association-list lookup of `proposed_in_flight` (a
`BTreeMap<ComputeRaftKey, RaftData>`; the stored serialized bytes are
embedded by the item they decode to). -/
def flookup (l : List (ComputeRaftKey × ComputeRaftItem)) (k : ComputeRaftKey) :
    Option ComputeRaftItem :=
  match l with
  | [] => none
  | p :: rest => if p.1 = k then some p.2 else flookup rest k

/-- Embedding of `BTreeMap::remove` on `proposed_in_flight`. -/
def fremove (l : List (ComputeRaftKey × ComputeRaftItem)) (k : ComputeRaftKey) :
    List (ComputeRaftKey × ComputeRaftItem) :=
  l.filter (fun p => !(p.1 == k))

/-- The in-flight bookkeeping at the top of `received_commit`
(lines 189–197): if the committed key is in `proposed_in_flight`, remove
it, and if the committed item is `Transactions`, subtract its length
from `proposed_tx_pool_len`. -/
def commit_in_flight_step (s : ComputeRaftState) (key : ComputeRaftKey)
    (item : ComputeRaftItem) : ComputeRaftState :=
  if (flookup s.proposed_in_flight key).isSome then
    { s with
      proposed_in_flight := fremove s.proposed_in_flight key
      proposed_tx_pool_len :=
        match item with
        | ComputeRaftItem.Transactions txs => s.proposed_tx_pool_len - txs.length
        | _ => s.proposed_tx_pool_len }
  else s

/-- Embedding of `ComputeRaft::received_commit` (lines 186–252). -/
def received_commit (s : ComputeRaftState) (raft_data : RaftData) :
    ComputeRaftState × Option CommittedItem :=
  match raft_data with
  | none => (s, none)
  | some (key, item) =>
    let s1 := commit_in_flight_step s key item
    match item with
    | ComputeRaftItem.FirstBlock utxo_set =>
      if !s1.consensused.is_first_block then (s1, none)
      else
        let c := s1.consensused.append_first_block_info key utxo_set
        if c.has_block_stored_info_ready then
          ({ s1 with consensused := c.apply_ready_block_stored_info },
           some CommittedItem.FirstBlock)
        else ({ s1 with consensused := c }, none)
    | ComputeRaftItem.Transactions txs =>
      ({ s1 with consensused :=
           { s1.consensused with tx_pool := mappend s1.consensused.tx_pool txs } },
       some CommittedItem.Transactions)
    | ComputeRaftItem.DruidTransactions txs =>
      ({ s1 with consensused :=
           { s1.consensused with tx_druid_pool := s1.consensused.tx_druid_pool ++ txs } },
       some CommittedItem.Transactions)
    | ComputeRaftItem.Block info =>
      if !s1.consensused.is_current_block info.block_num then (s1, none)
      else
        let c := s1.consensused.append_block_stored_info key info
        if c.has_block_stored_info_ready then
          ({ s1 with consensused := c.apply_ready_block_stored_info },
           some CommittedItem.Block)
        else ({ s1 with consensused := c }, none)

/-- Embedding of `ComputeRaft::propose_item` (lines 314–327), with the raft send
being external: assign the next proposal id and record the proposal in
flight. -/
def propose_item (s : ComputeRaftState) (item : ComputeRaftItem) : ComputeRaftState :=
  { s with
    proposed_last_id := s.proposed_last_id + 1
    proposed_in_flight :=
      s.proposed_in_flight ++ [(⟨s.peer_id, s.proposed_last_id + 1⟩, item)] }

/-- Embedding of `take_first_n` (lines 652–660): take the whole map, and if an `n`-th
key exists, split everything from it back off into the source. -/
def take_first_n {α : Type} (n : Nat) (m : SMap α) : SMap α × SMap α :=
  match (m.map Prod.fst).get? n with
  | some maxKey =>
    (m.filter (fun p => decide (p.1 < maxKey)), m.filter (fun p => !(decide (p.1 < maxKey))))
  | none => (m, [])

/-- Embedding of `ComputeRaft::propose_local_transactions_at_timeout`
(lines 286–302), with the timer reset being external real time. -/
def propose_local_transactions_at_timeout (s : ComputeRaftState) : ComputeRaftState :=
  let max_add := s.proposed_and_consensused_tx_pool_len_max
      - (s.proposed_tx_pool_len + s.consensused.tx_pool.length)
  let max_propose_len := min max_add s.proposed_tx_pool_len_max
  let tp := take_first_n max_propose_len s.local_tx_pool
  let s2 := { s with local_tx_pool := tp.2 }
  if tp.1.isEmpty then s2
  else
    propose_item { s2 with proposed_tx_pool_len := s2.proposed_tx_pool_len + tp.1.length }
      (ComputeRaftItem.Transactions tp.1)

/-- Embedding of `ComputeRaft::new` (lines 117–164), keeping the fields the state
machine touches: the seed UTXO entries are built with
`Transaction::new()`, the in-flight caps derive from `BLOCK_SIZE_IN_TX`
(a constant whose value lives outside the given sources, kept as the
parameter `blockSizeInTx`), and the initial UTXO set is proposed as a
`FirstBlock` item. -/
def ComputeRaftState.init (peerId peersLen blockSizeInTx : Nat) (seedUtxo : List String) :
    ComputeRaftState :=
  propose_item
    { peer_id := peerId
      consensused := ComputeConsensused.init peersLen
      local_tx_pool := []
      local_tx_druid_pool := []
      last_block_stored_infos := []
      proposed_in_flight := []
      proposed_tx_pool_len := 0
      proposed_tx_pool_len_max := blockSizeInTx / peersLen
      proposed_and_consensused_tx_pool_len_max := blockSizeInTx * 2
      proposed_last_id := 0 }
    (ComputeRaftItem.FirstBlock (seedUtxo.map (fun h => (h, Transaction.new))))

/-!  ### Block assembly (`generate_block` and helpers, lines 408–526) -/

/-- Embedding of `ComputeConsensused::update_current_block_tx_with_given_valid_txs`
(lines 513–526): remove every input hash of the valid set from
`utxo_set` (`remove(..).unwrap()`: for a set accepted by
`find_invalid_new_txs` every such hash is present, so the embedded erase
never misses), extend the block transaction list with the keys, and move
the transactions into `block_tx`. -/
def update_current_block_tx_with_given_valid_txs (txs : SMap Transaction)
    (st : ComputeConsensused × Block × SMap Transaction) :
    ComputeConsensused × Block × SMap Transaction :=
  ({ st.1 with utxo_set :=
       (getInputsPreviousOutHash (txs.map Prod.snd)).foldl merase st.1.utxo_set },
   { st.2.1 with transactions := st.2.1.transactions ++ txs.map Prod.fst },
   mappend st.2.2 txs)

/-- One iteration of the droplet loop of `update_committed_dde_tx`: an
invalid droplet is dropped whole, a valid one is applied whole. -/
def apply_droplet (st : ComputeConsensused × Block × SMap Transaction)
    (txs : SMap Transaction) : ComputeConsensused × Block × SMap Transaction :=
  if (find_invalid_new_txs st.1.utxo_set txs).isEmpty then
    update_current_block_tx_with_given_valid_txs txs st
  else st

/-- Embedding of `ComputeConsensused::update_committed_dde_tx` (lines 467–483): take
the DRUID pool and process each droplet in sequence order. -/
def update_committed_dde_tx (c : ComputeConsensused) (block : Block)
    (block_tx : SMap Transaction) : ComputeConsensused × Block × SMap Transaction :=
  List.foldl apply_droplet ({ c with tx_druid_pool := [] }, block, block_tx) c.tx_druid_pool

/-- Embedding of `ComputeConsensused::update_current_block_tx` (lines 485–501):
prune `tx_pool` of its invalid transactions, then apply the first
`BLOCK_SIZE_IN_TX` remaining ones. -/
def update_current_block_tx (blockSizeInTx : Nat)
    (st : ComputeConsensused × Block × SMap Transaction) :
    ComputeConsensused × Block × SMap Transaction :=
  let invalid := find_invalid_new_txs st.1.utxo_set st.1.tx_pool
  let pool2 := st.1.tx_pool.filter (fun p => !(invalid.contains p.1))
  let tp := take_first_n blockSizeInTx pool2
  update_current_block_tx_with_given_valid_txs tp.1
    ({ st.1 with tx_pool := tp.2 }, st.2.1, st.2.2)

/-- Embedding of `ComputeConsensused::update_block_header` (lines 503–511):
`previous_hash` is taken (leaving `None` behind) and both `unwrap`s
panic — embedded as `none` — unless both header inputs are present;
`time` is `b_num as u32`, embedded as `b_num % 2^32`. -/
def update_block_header (st : ComputeConsensused × Block) :
    Option (ComputeConsensused × Block) :=
  match st.1.tx_current_block_previous_hash, st.1.tx_current_block_num with
  | some previous_hash, some b_num =>
    some ({ st.1 with tx_current_block_previous_hash := none },
          { st.2 with header :=
              { previous_hash := some previous_hash
                b_num := b_num
                time := b_num % 4294967296 } })
  | _, _ => none

/-- Embedding of `ComputeConsensused::set_committed_mining_block` (lines 409–424). -/
def set_committed_mining_block (c : ComputeConsensused) (block : Block)
    (block_tx : SMap Transaction) : ComputeConsensused :=
  { c with utxo_set := mappend c.utxo_set block_tx
           current_block := some block
           current_block_tx := block_tx }

/-- Embedding of `ComputeConsensused::generate_block` (lines 452–465). -/
def generate_block (blockSizeInTx : Nat) (c : ComputeConsensused) :
    Option ComputeConsensused :=
  let st1 := update_committed_dde_tx c Block.new []
  let st2 := update_current_block_tx blockSizeInTx st1
  match update_block_header (st2.1, st2.2.1) with
  | none => none
  | some cb => some (set_committed_mining_block cb.1 cb.2 st2.2.2)

/-- Embedding of `ComputeConsensused::take_mining_block` (lines 436–441): the
`unwrap` on an absent `current_block` is embedded as `none`. -/
def take_mining_block (c : ComputeConsensused) :
    Option ((Block × SMap Transaction) × ComputeConsensused) :=
  match c.current_block with
  | none => none
  | some block =>
    some ((block, c.current_block_tx),
          { c with current_block := none, current_block_tx := [] })

/-!  ### Frame lemmas  -/

theorem commit_in_flight_step_consensused (s : ComputeRaftState) (key : ComputeRaftKey)
    (item : ComputeRaftItem) : (commit_in_flight_step s key item).consensused = s.consensused := by
  unfold commit_in_flight_step
  split <;> rfl

theorem apply_droplet_frame (st : ComputeConsensused × Block × SMap Transaction)
    (d : SMap Transaction) :
    (apply_droplet st d).1.tx_druid_pool = st.1.tx_druid_pool ∧
      (apply_droplet st d).1.tx_pool = st.1.tx_pool ∧
      (apply_droplet st d).1.tx_current_block_previous_hash
          = st.1.tx_current_block_previous_hash ∧
      (apply_droplet st d).1.tx_current_block_num = st.1.tx_current_block_num := by
  unfold apply_droplet update_current_block_tx_with_given_valid_txs
  split <;> simp

theorem foldl_apply_droplet_frame (l : List (SMap Transaction)) :
    ∀ st : ComputeConsensused × Block × SMap Transaction,
      (List.foldl apply_droplet st l).1.tx_druid_pool = st.1.tx_druid_pool ∧
        (List.foldl apply_droplet st l).1.tx_current_block_previous_hash
            = st.1.tx_current_block_previous_hash ∧
        (List.foldl apply_droplet st l).1.tx_current_block_num = st.1.tx_current_block_num := by
  induction l with
  | nil => intro st; exact ⟨rfl, rfl, rfl⟩
  | cons d rest ih =>
    intro st
    have h1 := apply_droplet_frame st d
    have h2 := ih (apply_droplet st d)
    refine ⟨?_, ?_, ?_⟩
    · rw [List.foldl_cons, h2.1, h1.1]
    · rw [List.foldl_cons, h2.2.1, h1.2.2.1]
    · rw [List.foldl_cons, h2.2.2, h1.2.2.2]

theorem update_committed_dde_tx_frame (c : ComputeConsensused) (b : Block)
    (bt : SMap Transaction) :
    (update_committed_dde_tx c b bt).1.tx_druid_pool = [] ∧
      (update_committed_dde_tx c b bt).1.tx_current_block_previous_hash
          = c.tx_current_block_previous_hash ∧
      (update_committed_dde_tx c b bt).1.tx_current_block_num = c.tx_current_block_num := by
  unfold update_committed_dde_tx
  exact foldl_apply_droplet_frame c.tx_druid_pool ({ c with tx_druid_pool := [] }, b, bt)

theorem update_current_block_tx_frame (bs : Nat)
    (st : ComputeConsensused × Block × SMap Transaction) :
    (update_current_block_tx bs st).1.tx_druid_pool = st.1.tx_druid_pool ∧
      (update_current_block_tx bs st).1.tx_current_block_previous_hash
          = st.1.tx_current_block_previous_hash ∧
      (update_current_block_tx bs st).1.tx_current_block_num = st.1.tx_current_block_num := by
  unfold update_current_block_tx update_current_block_tx_with_given_valid_txs
  exact ⟨rfl, rfl, rfl⟩

/-- Claim C10: `take_mining_block` on a state with `current_block =
Some(b)` returns `(b, current_block_tx)` and leaves `current_block =
None` and `current_block_tx` empty while every other consensused field
is unchanged; on a state with `current_block = None` the `unwrap`
panics (embedded as `none`). -/
theorem take_mining_block_spec :
    (∀ (c : ComputeConsensused) (b : Block), c.current_block = some b →
        ∃ c2 : ComputeConsensused,
          take_mining_block c = some ((b, c.current_block_tx), c2) ∧
            c2.current_block = none ∧
            c2.current_block_tx = [] ∧
            c2.utxo_set = c.utxo_set ∧
            c2.tx_pool = c.tx_pool ∧
            c2.tx_druid_pool = c.tx_druid_pool ∧
            c2.tx_current_block_previous_hash = c.tx_current_block_previous_hash ∧
            c2.tx_current_block_num = c.tx_current_block_num ∧
            c2.current_block_stored_info = c.current_block_stored_info ∧
            c2.unanimous_majority = c.unanimous_majority ∧
            c2.sufficient_majority = c.sufficient_majority) ∧
    (∀ c : ComputeConsensused, c.current_block = none → take_mining_block c = none) := by
  constructor
  · intro c b hb
    refine ⟨{ c with current_block := none, current_block_tx := [] }, ?_⟩
    unfold take_mining_block
    rw [hb]
    exact ⟨rfl, rfl, rfl, rfl, rfl, rfl, rfl, rfl, rfl, rfl, rfl⟩
  · intro c hb
    unfold take_mining_block
    rw [hb]

/-- A consensused state used to instantiate witnesses. -/
def cWitness : ComputeConsensused :=
  { ComputeConsensused.init 1 with
      current_block := some Block.new
      current_block_tx := [("t1", Transaction.new)]
      tx_current_block_previous_hash := some "prev"
      tx_current_block_num := some 3
      utxo_set := [("000000", Transaction.new)] }

theorem take_mining_block_spec_witness :
    cWitness.current_block = some Block.new ∧
      ∃ c2 : ComputeConsensused,
        take_mining_block cWitness = some ((Block.new, cWitness.current_block_tx), c2) ∧
          c2.current_block = none ∧
          c2.current_block_tx = [] ∧
          c2.utxo_set = cWitness.utxo_set ∧
          c2.tx_pool = cWitness.tx_pool ∧
          c2.tx_druid_pool = cWitness.tx_druid_pool ∧
          c2.tx_current_block_previous_hash = cWitness.tx_current_block_previous_hash ∧
          c2.tx_current_block_num = cWitness.tx_current_block_num ∧
          c2.current_block_stored_info = cWitness.current_block_stored_info ∧
          c2.unanimous_majority = cWitness.unanimous_majority ∧
          c2.sufficient_majority = cWitness.sufficient_majority :=
  ⟨rfl, take_mining_block_spec.1 cWitness Block.new rfl⟩

/-- Claim C9: with `tx_current_block_previous_hash = Some(h)` and
`tx_current_block_num = Some(b)`, `generate_block` succeeds and the
assembled block's header carries `previous_hash = Some(h)`,
`b_num = b` and `time = b` truncated to `u32`, and afterwards
`tx_current_block_previous_hash` is `None` (it is taken); without that
precondition the `unwrap`s panic (embedded as `none`). -/
theorem generate_block_header_spec :
    (∀ (bs : Nat) (c : ComputeConsensused) (ph : String) (bn : Nat),
        c.tx_current_block_previous_hash = some ph →
        c.tx_current_block_num = some bn →
        ∃ c2 : ComputeConsensused,
          generate_block bs c = some c2 ∧
            c2.tx_current_block_previous_hash = none ∧
            ∃ blk : Block,
              c2.current_block = some blk ∧
                blk.header.previous_hash = some ph ∧
                blk.header.b_num = bn ∧
                blk.header.time = bn % 4294967296) ∧
    (∀ (bs : Nat) (c : ComputeConsensused),
        c.tx_current_block_previous_hash = none ∨ c.tx_current_block_num = none →
        generate_block bs c = none) := by
  constructor
  · intro bs c ph bn hph hbn
    have h1 := update_committed_dde_tx_frame c Block.new []
    have h2 := update_current_block_tx_frame bs (update_committed_dde_tx c Block.new [])
    have hph2 : (update_current_block_tx bs
        (update_committed_dde_tx c Block.new [])).1.tx_current_block_previous_hash = some ph := by
      rw [h2.2.1, h1.2.1, hph]
    have hbn2 : (update_current_block_tx bs
        (update_committed_dde_tx c Block.new [])).1.tx_current_block_num = some bn := by
      rw [h2.2.2, h1.2.2, hbn]
    simp only [generate_block, update_block_header]
    rw [hph2, hbn2]
    refine ⟨_, rfl, rfl, _, rfl, rfl, rfl, rfl⟩
  · intro bs c hc
    have h1 := update_committed_dde_tx_frame c Block.new []
    have h2 := update_current_block_tx_frame bs (update_committed_dde_tx c Block.new [])
    simp only [generate_block, update_block_header]
    rcases hc with hc | hc
    · have hph2 : (update_current_block_tx bs
          (update_committed_dde_tx c Block.new [])).1.tx_current_block_previous_hash = none := by
        rw [h2.2.1, h1.2.1, hc]
      rw [hph2]
    · have hbn2 : (update_current_block_tx bs
          (update_committed_dde_tx c Block.new [])).1.tx_current_block_num = none := by
        rw [h2.2.2, h1.2.2, hc]
      rw [hbn2]
      cases hp : (update_current_block_tx bs
          (update_committed_dde_tx c Block.new [])).1.tx_current_block_previous_hash <;> rfl

theorem generate_block_header_spec_witness :
    cWitness.tx_current_block_previous_hash = some "prev" ∧
      cWitness.tx_current_block_num = some 3 ∧
      ∃ c2 : ComputeConsensused,
        generate_block 5 cWitness = some c2 ∧
          c2.tx_current_block_previous_hash = none ∧
          ∃ blk : Block,
            c2.current_block = some blk ∧
              blk.header.previous_hash = some "prev" ∧
              blk.header.b_num = 3 ∧
              blk.header.time = 3 % 4294967296 :=
  ⟨rfl, rfl, generate_block_header_spec.1 5 cWitness "prev" 3 rfl rfl⟩

theorem apply_droplet_of_invalid (st : ComputeConsensused × Block × SMap Transaction)
    (d : SMap Transaction) (h : find_invalid_new_txs st.1.utxo_set d ≠ []) :
    apply_droplet st d = st := by
  unfold apply_droplet
  rw [if_neg]
  simpa using h

theorem apply_droplet_of_valid (st : ComputeConsensused × Block × SMap Transaction)
    (d : SMap Transaction) (h : find_invalid_new_txs st.1.utxo_set d = []) :
    apply_droplet st d = update_current_block_tx_with_given_valid_txs d st := by
  unfold apply_droplet
  rw [if_pos]
  simpa using h

theorem update_block_header_pool (st : ComputeConsensused × Block) (cb : ComputeConsensused × Block)
    (h : update_block_header st = some cb) : cb.1.tx_druid_pool = st.1.tx_druid_pool := by
  unfold update_block_header at h
  split at h
  · cases h
    rfl
  · cases h

/-- Claim C4: during `generate_block`, each droplet of `tx_druid_pool`
is processed atomically in sequence order: a droplet on which
`find_invalid_new_txs` is non-empty is skipped whole, leaving the fold
state — `utxo_set`, the forming block's transaction list and `block_tx`
— exactly as if the droplet were absent; a droplet on which it is empty
has all its transactions enter the block, every input they reference
removed from `utxo_set` and the transactions moved into `block_tx`; and
afterwards `tx_druid_pool` is empty (also through `generate_block`
whenever it completes). -/
theorem generate_block_druid_droplet_spec :
    (∀ (c : ComputeConsensused) (b : Block) (bt : SMap Transaction),
        (update_committed_dde_tx c b bt).1.tx_druid_pool = []) ∧
    (∀ (c : ComputeConsensused) (b : Block) (bt : SMap Transaction)
        (pre : List (SMap Transaction)) (d : SMap Transaction)
        (post : List (SMap Transaction)),
        c.tx_druid_pool = pre ++ d :: post →
        find_invalid_new_txs
            (List.foldl apply_droplet ({ c with tx_druid_pool := [] }, b, bt) pre).1.utxo_set
            d ≠ [] →
        update_committed_dde_tx c b bt =
          update_committed_dde_tx { c with tx_druid_pool := pre ++ post } b bt) ∧
    (∀ (st : ComputeConsensused × Block × SMap Transaction) (d : SMap Transaction),
        find_invalid_new_txs st.1.utxo_set d = [] →
        (apply_droplet st d).1.utxo_set
            = (getInputsPreviousOutHash (d.map Prod.snd)).foldl merase st.1.utxo_set ∧
          (apply_droplet st d).2.1.transactions = st.2.1.transactions ++ d.map Prod.fst ∧
          (apply_droplet st d).2.2 = mappend st.2.2 d) ∧
    (∀ (bs : Nat) (c c2 : ComputeConsensused),
        generate_block bs c = some c2 → c2.tx_druid_pool = []) := by
  refine ⟨?_, ?_, ?_, ?_⟩
  · intro c b bt
    exact (update_committed_dde_tx_frame c b bt).1
  · intro c b bt pre d post hpool hinv
    show List.foldl apply_droplet ({ c with tx_druid_pool := [] }, b, bt) c.tx_druid_pool
        = List.foldl apply_droplet ({ c with tx_druid_pool := [] }, b, bt) (pre ++ post)
    rw [hpool, List.foldl_append, List.foldl_append, List.foldl_cons,
      apply_droplet_of_invalid _ _ hinv]
  · intro st d h
    rw [apply_droplet_of_valid st d h]
    exact ⟨rfl, rfl, rfl⟩
  · intro bs c c2 hgen
    have h1 := update_committed_dde_tx_frame c Block.new []
    have h2 := update_current_block_tx_frame bs (update_committed_dde_tx c Block.new [])
    simp only [generate_block] at hgen
    rcases hh : update_block_header
        ((update_current_block_tx bs (update_committed_dde_tx c Block.new [])).1,
         (update_current_block_tx bs (update_committed_dde_tx c Block.new [])).2.1)
      with _ | cb
    · rw [hh] at hgen
      cases hgen
    · rw [hh] at hgen
      cases hgen
      show (set_committed_mining_block cb.1 cb.2 _).tx_druid_pool = []
      have hp := update_block_header_pool _ _ hh
      show cb.1.tx_druid_pool = []
      rw [hp]
      show (update_current_block_tx bs (update_committed_dde_tx c Block.new [])).1.tx_druid_pool
          = []
      rw [h2.1, h1.1]

/-- A consensused state holding one internally double-spending droplet,
used to instantiate the droplet witness. -/
def cDroplet : ComputeConsensused :=
  { ComputeConsensused.init 1 with
      tx_druid_pool := [[("t1", ⟨["x"]⟩)]] }

theorem generate_block_druid_droplet_spec_witness :
    cDroplet.tx_druid_pool = [] ++ [("t1", ⟨["x"]⟩)] :: [] ∧
      find_invalid_new_txs
          (List.foldl apply_droplet ({ cDroplet with tx_druid_pool := [] }, Block.new, [])
            []).1.utxo_set [("t1", ⟨["x"]⟩)] ≠ [] ∧
      update_committed_dde_tx cDroplet Block.new [] =
        update_committed_dde_tx { cDroplet with tx_druid_pool := [] ++ [] } Block.new [] :=
  ⟨rfl, by decide,
    generate_block_druid_droplet_spec.2.1 cDroplet Block.new [] [] [("t1", ⟨["x"]⟩)] []
      rfl (by decide)⟩

/-!  ### Vote-accumulator lemmas for the commit-vote claims  -/

theorem maxByVoteLen_pick (e : AccumulatingBlockStoredInfo × List Nat) :
    ∀ (l : VoteAccumulator) (acc : Option (AccumulatingBlockStoredInfo × List Nat)),
      (∀ e2 ∈ l, e2 ≠ e → e2.2.length < e.2.length) →
      (acc = some e ∨
        (e ∈ l ∧ ∀ a, acc = some a → a = e ∨ a.2.length < e.2.length)) →
      maxByVoteLen acc l = some e := by
  intro l
  induction l with
  | nil =>
    intro acc h1 h2
    rcases h2 with h2 | ⟨h2, _⟩
    · rw [h2]
      rfl
    · cases h2
  | cons p rest ih =>
    intro acc h1 h2
    have h1rest : ∀ e2 ∈ rest, e2 ≠ e → e2.2.length < e.2.length :=
      fun e2 he2 => h1 e2 (List.mem_cons_of_mem _ he2)
    have hp : p ≠ e → p.2.length < e.2.length := h1 p (List.mem_cons_self p rest)
    match acc with
    | none =>
      rw [maxByVoteLen]
      apply ih (some p) h1rest
      by_cases hpe : p = e
      · exact Or.inl (by rw [hpe])
      · right
        constructor
        · rcases h2 with h2 | ⟨h2, _⟩
          · cases h2
          · rcases List.mem_cons.mp h2 with h | h
            · exact absurd h.symm hpe
            · exact h
        · intro a ha
          have hap : a = p := (Option.some.inj ha).symm
          exact Or.inr (hap ▸ hp hpe)
    | some q =>
      rw [maxByVoteLen]
      have hq : q = e ∨ q.2.length < e.2.length := by
        rcases h2 with h2 | ⟨_, h2⟩
        · exact Or.inl (Option.some.inj h2)
        · exact h2 q rfl
      by_cases hpe : p = e
      · apply ih _ h1rest
        left
        subst hpe
        rcases hq with rfl | hq
        · split <;> rfl
        · rw [if_pos (le_of_lt hq)]
      · have hplen := hp hpe
        rcases hq with rfl | hqlen
        · apply ih _ h1rest
          left
          rw [if_neg (not_le.mpr hplen)]
        · apply ih _ h1rest
          right
          have hmem : e ∈ rest := by
            rcases h2 with h2 | ⟨h2, _⟩
            · exact absurd (Option.some.inj h2) (fun hqe => absurd (hqe ▸ hqlen) (lt_irrefl _))
            · rcases List.mem_cons.mp h2 with h | h
              · exact absurd h.symm hpe
              · exact h
          refine ⟨hmem, ?_⟩
          intro a ha
          have haeq : (if q.2.length ≤ p.2.length then p else q) = a := Option.some.inj ha
          right
          rw [← haeq]
          split
          · exact hplen
          · exact hqlen

theorem le_foldr_max (x : Nat) : ∀ l : List Nat, x ∈ l → x ≤ l.foldr max 0 := by
  intro l
  induction l with
  | nil => intro h; cases h
  | cons a rest ih =>
    intro h
    rcases List.mem_cons.mp h with rfl | h
    · exact le_max_left _ _
    · exact le_trans (ih h) (le_max_right _ _)

theorem le_max_agreeing (c : ComputeConsensused) (e : AccumulatingBlockStoredInfo × List Nat)
    (he : e ∈ c.current_block_stored_info) :
    e.2.length ≤ c.max_agreeing_block_stored_info := by
  unfold ComputeConsensused.max_agreeing_block_stored_info
  exact le_foldr_max _ _ (List.mem_map.mpr ⟨e, he, rfl⟩)

theorem apply_ready_block_case (c : ComputeConsensused)
    (e : AccumulatingBlockStoredInfo × List Nat) (payload : BlockStoredInfo)
    (he : e ∈ c.current_block_stored_info)
    (hmax : ∀ e2 ∈ c.current_block_stored_info, e2 ≠ e → e2.2.length < e.2.length)
    (he1 : e.1 = AccumulatingBlockStoredInfo.Block payload) :
    c.apply_ready_block_stored_info =
      { c with
          tx_current_block_previous_hash := some payload.block_hash
          tx_current_block_num := some (payload.block_num + 1)
          utxo_set := mappend c.utxo_set payload.mining_transactions
          current_block_stored_info := [] } := by
  unfold ComputeConsensused.apply_ready_block_stored_info
  rw [maxByVoteLen_pick e c.current_block_stored_info none hmax
    (Or.inr ⟨he, fun a ha => by cases ha⟩)]
  obtain ⟨e1, votes⟩ := e
  cases he1
  rfl

theorem apply_ready_first_block_case (c : ComputeConsensused)
    (e : AccumulatingBlockStoredInfo × List Nat) (payload : SMap Transaction)
    (he : e ∈ c.current_block_stored_info)
    (hmax : ∀ e2 ∈ c.current_block_stored_info, e2 ≠ e → e2.2.length < e.2.length)
    (he1 : e.1 = AccumulatingBlockStoredInfo.FirstBlock payload) :
    c.apply_ready_block_stored_info =
      { c with
          tx_current_block_num := some 0
          utxo_set := payload
          current_block_stored_info := [] } := by
  unfold ComputeConsensused.apply_ready_block_stored_info
  rw [maxByVoteLen_pick e c.current_block_stored_info none hmax
    (Or.inr ⟨he, fun a ha => by cases ha⟩)]
  obtain ⟨e1, votes⟩ := e
  cases he1
  rfl

theorem is_current_block_false (c : ComputeConsensused) (n : Nat)
    (h : c.tx_current_block_num ≠ some n) : c.is_current_block n = false := by
  unfold ComputeConsensused.is_current_block
  cases hc : c.tx_current_block_num with
  | none => rfl
  | some cur =>
    have hne : n ≠ cur := fun he => h (by rw [hc, he])
    simp [hne]

theorem is_current_block_true (c : ComputeConsensused) (n : Nat)
    (h : c.tx_current_block_num = some n) : c.is_current_block n = true := by
  unfold ComputeConsensused.is_current_block
  rw [h]
  simp

theorem received_commit_block_eq (s : ComputeRaftState) (key : ComputeRaftKey)
    (info : BlockStoredInfo) :
    received_commit s (some (key, ComputeRaftItem.Block info)) =
      (if s.consensused.is_current_block info.block_num then
        (if (s.consensused.append_block_stored_info key info).has_block_stored_info_ready then
          ({ commit_in_flight_step s key (ComputeRaftItem.Block info) with
              consensused :=
                (s.consensused.append_block_stored_info key info).apply_ready_block_stored_info },
           some CommittedItem.Block)
        else
          ({ commit_in_flight_step s key (ComputeRaftItem.Block info) with
              consensused := s.consensused.append_block_stored_info key info }, none))
      else (commit_in_flight_step s key (ComputeRaftItem.Block info), none)) := by
  simp only [received_commit]
  rw [commit_in_flight_step_consensused s key (ComputeRaftItem.Block info)]
  cases hgate : s.consensused.is_current_block info.block_num
  · simp [hgate]
  · cases hready :
        (s.consensused.append_block_stored_info key info).has_block_stored_info_ready <;>
      simp [hgate, hready]

/-- Claim C2: a committed `Block(info)` item is applied as a vote only
when `info.block_num` equals `tx_current_block_num` (otherwise the
consensused state is unchanged and no signal is emitted; the envelope
bookkeeping of lines 189–197 is separate and covered by the in-flight
accounting claim); once the vote is recorded, if the most-voted
accumulated entry (unique by hypothesis, since ties are broken by an
unmodellable digest order) has at least
`sufficient_majority = peers_len / 2 + 1` agreeing proposer ids, its
payload is applied: `tx_current_block_previous_hash` becomes
`Some(payload.block_hash)`, `tx_current_block_num` becomes
`Some(payload.block_num + 1)`, `payload.mining_transactions` are added
into `utxo_set`, `current_block_stored_info` is emptied and
`CommittedItem::Block` is returned; below the threshold the vote is
merely recorded and no signal is emitted. -/
theorem received_commit_block_spec :
    (∀ (s : ComputeRaftState) (key : ComputeRaftKey) (info : BlockStoredInfo),
        s.consensused.tx_current_block_num ≠ some info.block_num →
        (received_commit s (some (key, ComputeRaftItem.Block info))).1.consensused
            = s.consensused ∧
          (received_commit s (some (key, ComputeRaftItem.Block info))).2 = none) ∧
    (∀ (s : ComputeRaftState) (key : ComputeRaftKey) (info : BlockStoredInfo),
        s.consensused.tx_current_block_num = some info.block_num →
        (s.consensused.append_block_stored_info key info).has_block_stored_info_ready
            = false →
        (received_commit s (some (key, ComputeRaftItem.Block info))).1.consensused
            = s.consensused.append_block_stored_info key info ∧
          (received_commit s (some (key, ComputeRaftItem.Block info))).2 = none) ∧
    (∀ (s : ComputeRaftState) (key : ComputeRaftKey) (info : BlockStoredInfo)
        (e : AccumulatingBlockStoredInfo × List Nat) (payload : BlockStoredInfo),
        s.consensused.tx_current_block_num = some info.block_num →
        e ∈ (s.consensused.append_block_stored_info key info).current_block_stored_info →
        (∀ e2 ∈ (s.consensused.append_block_stored_info key info).current_block_stored_info,
            e2 ≠ e → e2.2.length < e.2.length) →
        e.1 = AccumulatingBlockStoredInfo.Block payload →
        s.consensused.sufficient_majority ≤ e.2.length →
        (received_commit s (some (key, ComputeRaftItem.Block info))).2
            = some CommittedItem.Block ∧
          (received_commit s (some (key, ComputeRaftItem.Block info))).1.consensused
              = { s.consensused.append_block_stored_info key info with
                    tx_current_block_previous_hash := some payload.block_hash
                    tx_current_block_num := some (payload.block_num + 1)
                    utxo_set := mappend s.consensused.utxo_set payload.mining_transactions
                    current_block_stored_info := [] }) ∧
    (∀ peersLen : Nat,
        (ComputeConsensused.init peersLen).sufficient_majority = peersLen / 2 + 1) := by
  refine ⟨?_, ?_, ?_, fun _ => rfl⟩
  · intro s key info hnum
    have hgate := is_current_block_false _ _ hnum
    rw [received_commit_block_eq]
    simp [hgate, commit_in_flight_step_consensused]
  · intro s key info hnum hready
    have hgate := is_current_block_true _ _ hnum
    rw [received_commit_block_eq]
    simp [hgate, hready]
  · intro s key info e payload hnum he hmax he1 hth
    have hgate := is_current_block_true _ _ hnum
    have hready : (s.consensused.append_block_stored_info key info).has_block_stored_info_ready
        = true := by
      unfold ComputeConsensused.has_block_stored_info_ready
      have hfb : (s.consensused.append_block_stored_info key info).is_first_block = false := by
        unfold ComputeConsensused.is_first_block
        show (s.consensused.tx_current_block_num).isNone = false
        rw [hnum]
        rfl
      rw [hfb]
      simp only [Bool.false_eq_true, if_false]
      exact decide_eq_true (le_trans hth (le_max_agreeing _ e he))
    have happly := apply_ready_block_case (s.consensused.append_block_stored_info key info)
      e payload he hmax he1
    rw [received_commit_block_eq, hgate, hready]
    refine ⟨rfl, ?_⟩
    show (s.consensused.append_block_stored_info key info).apply_ready_block_stored_info = _
    rw [happly]
    rfl

/-- A raft node state whose consensused state awaits block number `0`
in a single-member cluster, used to instantiate the block-vote
witness. -/
def sBlockVote : ComputeRaftState :=
  { peer_id := 0
    consensused := { ComputeConsensused.init 1 with tx_current_block_num := some 0 }
    local_tx_pool := []
    local_tx_druid_pool := []
    last_block_stored_infos := []
    proposed_in_flight := []
    proposed_tx_pool_len := 0
    proposed_tx_pool_len_max := 10
    proposed_and_consensused_tx_pool_len_max := 20
    proposed_last_id := 0 }

/-- The block-stored payload committed in the witnesses. -/
def infoVote : BlockStoredInfo := ⟨"hash0", 0, [("m1", Transaction.new)]⟩

theorem received_commit_block_spec_witness :
    sBlockVote.consensused.tx_current_block_num = some infoVote.block_num ∧
      (AccumulatingBlockStoredInfo.Block infoVote, [0])
          ∈ (sBlockVote.consensused.append_block_stored_info ⟨0, 1⟩
              infoVote).current_block_stored_info ∧
      sBlockVote.consensused.sufficient_majority
          ≤ (AccumulatingBlockStoredInfo.Block infoVote, ([0] : List Nat)).2.length ∧
      (received_commit sBlockVote (some (⟨0, 1⟩, ComputeRaftItem.Block infoVote))).2
          = some CommittedItem.Block ∧
      (received_commit sBlockVote (some (⟨0, 1⟩, ComputeRaftItem.Block infoVote))).1.consensused
          = { sBlockVote.consensused.append_block_stored_info ⟨0, 1⟩ infoVote with
                tx_current_block_previous_hash := some infoVote.block_hash
                tx_current_block_num := some (infoVote.block_num + 1)
                utxo_set := mappend sBlockVote.consensused.utxo_set infoVote.mining_transactions
                current_block_stored_info := [] } := by
  refine ⟨by decide, by decide, by decide, ?_⟩
  exact received_commit_block_spec.2.2.1 sBlockVote ⟨0, 1⟩ infoVote
    (AccumulatingBlockStoredInfo.Block infoVote, [0]) infoVote
    (by decide) (by decide) (by decide) (by decide) (by decide)

theorem received_commit_first_block_eq (s : ComputeRaftState) (key : ComputeRaftKey)
    (utxo : SMap Transaction) :
    received_commit s (some (key, ComputeRaftItem.FirstBlock utxo)) =
      (if s.consensused.is_first_block then
        (if (s.consensused.append_first_block_info key utxo).has_block_stored_info_ready then
          ({ commit_in_flight_step s key (ComputeRaftItem.FirstBlock utxo) with
              consensused :=
                (s.consensused.append_first_block_info key utxo).apply_ready_block_stored_info },
           some CommittedItem.FirstBlock)
        else
          ({ commit_in_flight_step s key (ComputeRaftItem.FirstBlock utxo) with
              consensused := s.consensused.append_first_block_info key utxo }, none))
      else (commit_in_flight_step s key (ComputeRaftItem.FirstBlock utxo), none)) := by
  simp only [received_commit]
  rw [commit_in_flight_step_consensused s key (ComputeRaftItem.FirstBlock utxo)]
  cases hgate : s.consensused.is_first_block
  · simp [hgate]
  · cases hready :
        (s.consensused.append_first_block_info key utxo).has_block_stored_info_ready <;>
      simp [hgate, hready]

/-- Claim C3: a committed `FirstBlock(utxo_set)` item is counted as a
vote only while `tx_current_block_num` is `None` (otherwise the
consensused state is unchanged and no signal is emitted; the envelope
bookkeeping of lines 189–197 is separate and covered by the in-flight
accounting claim); once the vote is recorded, if the most-voted
accumulated entry (unique by hypothesis, since ties are broken by an
unmodellable digest order) has at least `unanimous_majority =
peers_len` agreeing proposer ids, the consensused `utxo_set` is
replaced by that entry's payload, `tx_current_block_num` becomes
`Some(0)`, `current_block_stored_info` is emptied and
`CommittedItem::FirstBlock` is returned; below the threshold the vote
is merely recorded and no signal is emitted. -/
theorem received_commit_first_block_spec :
    (∀ (s : ComputeRaftState) (key : ComputeRaftKey) (utxo : SMap Transaction),
        s.consensused.tx_current_block_num ≠ none →
        (received_commit s (some (key, ComputeRaftItem.FirstBlock utxo))).1.consensused
            = s.consensused ∧
          (received_commit s (some (key, ComputeRaftItem.FirstBlock utxo))).2 = none) ∧
    (∀ (s : ComputeRaftState) (key : ComputeRaftKey) (utxo : SMap Transaction),
        s.consensused.tx_current_block_num = none →
        (s.consensused.append_first_block_info key utxo).has_block_stored_info_ready
            = false →
        (received_commit s (some (key, ComputeRaftItem.FirstBlock utxo))).1.consensused
            = s.consensused.append_first_block_info key utxo ∧
          (received_commit s (some (key, ComputeRaftItem.FirstBlock utxo))).2 = none) ∧
    (∀ (s : ComputeRaftState) (key : ComputeRaftKey) (utxo : SMap Transaction)
        (e : AccumulatingBlockStoredInfo × List Nat) (payload : SMap Transaction),
        s.consensused.tx_current_block_num = none →
        e ∈ (s.consensused.append_first_block_info key utxo).current_block_stored_info →
        (∀ e2 ∈ (s.consensused.append_first_block_info key utxo).current_block_stored_info,
            e2 ≠ e → e2.2.length < e.2.length) →
        e.1 = AccumulatingBlockStoredInfo.FirstBlock payload →
        s.consensused.unanimous_majority ≤ e.2.length →
        (received_commit s (some (key, ComputeRaftItem.FirstBlock utxo))).2
            = some CommittedItem.FirstBlock ∧
          (received_commit s (some (key, ComputeRaftItem.FirstBlock utxo))).1.consensused
              = { s.consensused.append_first_block_info key utxo with
                    tx_current_block_num := some 0
                    utxo_set := payload
                    current_block_stored_info := [] }) ∧
    (∀ peersLen : Nat,
        (ComputeConsensused.init peersLen).unanimous_majority = peersLen) := by
  refine ⟨?_, ?_, ?_, fun _ => rfl⟩
  · intro s key utxo hnum
    have hgate : s.consensused.is_first_block = false := by
      unfold ComputeConsensused.is_first_block
      cases hc : s.consensused.tx_current_block_num with
      | none => exact absurd hc hnum
      | some cur => rfl
    rw [received_commit_first_block_eq]
    simp [hgate, commit_in_flight_step_consensused]
  · intro s key utxo hnum hready
    have hgate : s.consensused.is_first_block = true := by
      unfold ComputeConsensused.is_first_block
      rw [hnum]
      rfl
    rw [received_commit_first_block_eq]
    simp [hgate, hready]
  · intro s key utxo e payload hnum he hmax he1 hth
    have hgate : s.consensused.is_first_block = true := by
      unfold ComputeConsensused.is_first_block
      rw [hnum]
      rfl
    have hready : (s.consensused.append_first_block_info key utxo).has_block_stored_info_ready
        = true := by
      unfold ComputeConsensused.has_block_stored_info_ready
      have hfb : (s.consensused.append_first_block_info key utxo).is_first_block = true := by
        unfold ComputeConsensused.is_first_block
        show (s.consensused.tx_current_block_num).isNone = true
        rw [hnum]
        rfl
      rw [hfb]
      simp only [if_true]
      exact decide_eq_true (le_trans hth (le_max_agreeing _ e he))
    have happly := apply_ready_first_block_case (s.consensused.append_first_block_info key utxo)
      e payload he hmax he1
    rw [received_commit_first_block_eq, hgate, hready]
    refine ⟨rfl, ?_⟩
    show (s.consensused.append_first_block_info key utxo).apply_ready_block_stored_info = _
    rw [happly]

/-- A freshly started single-member raft node state (no block number
yet), used to instantiate the first-block witness. -/
def sFirstVote : ComputeRaftState :=
  { peer_id := 0
    consensused := ComputeConsensused.init 1
    local_tx_pool := []
    local_tx_druid_pool := []
    last_block_stored_infos := []
    proposed_in_flight := []
    proposed_tx_pool_len := 0
    proposed_tx_pool_len_max := 10
    proposed_and_consensused_tx_pool_len_max := 20
    proposed_last_id := 0 }

/-- The seed UTXO set voted for in the first-block witness. -/
def utxoVote : SMap Transaction := [("000000", Transaction.new)]

theorem received_commit_first_block_spec_witness :
    sFirstVote.consensused.tx_current_block_num = none ∧
      (AccumulatingBlockStoredInfo.FirstBlock utxoVote, [0])
          ∈ (sFirstVote.consensused.append_first_block_info ⟨0, 1⟩
              utxoVote).current_block_stored_info ∧
      sFirstVote.consensused.unanimous_majority
          ≤ (AccumulatingBlockStoredInfo.FirstBlock utxoVote, ([0] : List Nat)).2.length ∧
      (received_commit sFirstVote (some (⟨0, 1⟩, ComputeRaftItem.FirstBlock utxoVote))).2
          = some CommittedItem.FirstBlock ∧
      (received_commit sFirstVote
            (some (⟨0, 1⟩, ComputeRaftItem.FirstBlock utxoVote))).1.consensused
          = { sFirstVote.consensused.append_first_block_info ⟨0, 1⟩ utxoVote with
                tx_current_block_num := some 0
                utxo_set := utxoVote
                current_block_stored_info := [] } := by
  refine ⟨by decide, by decide, by decide, ?_⟩
  exact received_commit_first_block_spec.2.2.1 sFirstVote ⟨0, 1⟩ utxoVote
    (AccumulatingBlockStoredInfo.FirstBlock utxoVote, [0]) utxoVote
    (by decide) (by decide) (by decide) (by decide) (by decide)

/-!  ### In-flight accounting (claim C6)  -/

/-- The number of transactions an in-flight item contributes to
`proposed_tx_pool_len`. -/
def item_tx_len : ComputeRaftItem → Nat
  | ComputeRaftItem.Transactions txs => txs.length
  | _ => 0

/-- The sum of the batch lengths of the `Transactions` items recorded in
`proposed_in_flight`. -/
def in_flight_tx_len (l : List (ComputeRaftKey × ComputeRaftItem)) : Nat :=
  (l.map (fun p => item_tx_len p.2)).sum

theorem fremove_of_not_mem (l : List (ComputeRaftKey × ComputeRaftItem)) (k : ComputeRaftKey)
    (h : ∀ p ∈ l, p.1 ≠ k) : fremove l k = l := by
  unfold fremove
  apply List.filter_eq_self.mpr
  intro p hp
  simpa using h p hp

theorem in_flight_tx_len_remove :
    ∀ (l : List (ComputeRaftKey × ComputeRaftItem)) (k : ComputeRaftKey)
      (it : ComputeRaftItem),
      (l.map Prod.fst).Nodup → flookup l k = some it →
      in_flight_tx_len l = in_flight_tx_len (fremove l k) + item_tx_len it := by
  intro l
  induction l with
  | nil =>
    intro k it _ h
    cases h
  | cons p rest ih =>
    intro k it hnd hl
    rw [flookup] at hl
    rw [List.map_cons, List.nodup_cons] at hnd
    by_cases hpk : p.1 = k
    · rw [if_pos hpk] at hl
      have hit : p.2 = it := Option.some.inj hl
      have hrest : fremove rest k = rest := by
        apply fremove_of_not_mem
        intro q hq hqk
        exact hnd.1 (hpk ▸ hqk ▸ List.mem_map.mpr ⟨q, hq, rfl⟩)
      have hcond : (!(p.1 == k)) = false := by simp [hpk]
      unfold fremove
      rw [List.filter_cons, hcond]
      show in_flight_tx_len (p :: rest) = in_flight_tx_len (fremove rest k) + item_tx_len it
      rw [hrest, ← hit]
      unfold in_flight_tx_len
      rw [List.map_cons, List.sum_cons]
      omega
    · rw [if_neg hpk] at hl
      have hsum := ih k it hnd.2 hl
      have hcond : (!(p.1 == k)) = true := by simp [hpk]
      unfold fremove
      rw [List.filter_cons, hcond]
      show in_flight_tx_len (p :: rest)
          = in_flight_tx_len (p :: fremove rest k) + item_tx_len it
      unfold in_flight_tx_len at hsum ⊢
      rw [List.map_cons, List.sum_cons, List.map_cons, List.sum_cons]
      omega

theorem received_commit_proposed_frame (s : ComputeRaftState) (key : ComputeRaftKey)
    (item : ComputeRaftItem) :
    (received_commit s (some (key, item))).1.proposed_tx_pool_len
        = (commit_in_flight_step s key item).proposed_tx_pool_len ∧
      (received_commit s (some (key, item))).1.proposed_in_flight
        = (commit_in_flight_step s key item).proposed_in_flight := by
  cases item with
  | FirstBlock utxo =>
    rw [received_commit_first_block_eq]
    by_cases hgate : s.consensused.is_first_block = true
    · rw [if_pos hgate]
      by_cases hready :
          (s.consensused.append_first_block_info key utxo).has_block_stored_info_ready = true
      · rw [if_pos hready]
        exact ⟨rfl, rfl⟩
      · rw [if_neg hready]
        exact ⟨rfl, rfl⟩
    · rw [if_neg hgate]
      exact ⟨rfl, rfl⟩
  | Transactions txs => exact ⟨rfl, rfl⟩
  | DruidTransactions txs => exact ⟨rfl, rfl⟩
  | Block info =>
    rw [received_commit_block_eq]
    by_cases hgate : s.consensused.is_current_block info.block_num = true
    · rw [if_pos hgate]
      by_cases hready :
          (s.consensused.append_block_stored_info key info).has_block_stored_info_ready = true
      · rw [if_pos hready]
        exact ⟨rfl, rfl⟩
      · rw [if_neg hready]
        exact ⟨rfl, rfl⟩
    · rw [if_neg hgate]
      exact ⟨rfl, rfl⟩

/-- Claim C6: after every `received_commit`, `proposed_tx_pool_len`
(non-negative by construction in this `Nat` embedding) equals the sum of
the batch lengths of the `Transactions` items still recorded in
`proposed_in_flight`: a committed payload whose key is found in
`proposed_in_flight` has that entry removed and, when the item is
`Transactions`, its length subtracted.  The hypotheses state that the
accounting held before the call, that in-flight keys are unique (a
`BTreeMap` invariant), and that a committed payload found in flight is
the payload that was proposed under that key (the raft log delivers the
proposed bytes). -/
theorem received_commit_in_flight_accounting :
    ∀ (s : ComputeRaftState) (d : RaftData),
      s.proposed_tx_pool_len = in_flight_tx_len s.proposed_in_flight →
      (s.proposed_in_flight.map Prod.fst).Nodup →
      (∀ (key : ComputeRaftKey) (item it : ComputeRaftItem), d = some (key, item) →
          flookup s.proposed_in_flight key = some it → it = item) →
      (received_commit s d).1.proposed_tx_pool_len
        = in_flight_tx_len (received_commit s d).1.proposed_in_flight := by
  intro s d hinv hnd hcoh
  match d with
  | none => exact hinv
  | some (key, item) =>
    have hframe := received_commit_proposed_frame s key item
    rw [hframe.1, hframe.2]
    unfold commit_in_flight_step
    by_cases hlk : (flookup s.proposed_in_flight key).isSome = true
    · rw [if_pos hlk]
      obtain ⟨it, hit⟩ := Option.isSome_iff_exists.mp hlk
      have hitem : it = item := hcoh key item it rfl hit
      have hsum := in_flight_tx_len_remove s.proposed_in_flight key it hnd hit
      subst hitem
      cases it with
      | Transactions txs =>
        show s.proposed_tx_pool_len - txs.length
            = in_flight_tx_len (fremove s.proposed_in_flight key)
        simp only [item_tx_len] at hsum
        omega
      | FirstBlock utxo =>
        show s.proposed_tx_pool_len = in_flight_tx_len (fremove s.proposed_in_flight key)
        simp only [item_tx_len] at hsum
        omega
      | DruidTransactions txs =>
        show s.proposed_tx_pool_len = in_flight_tx_len (fremove s.proposed_in_flight key)
        simp only [item_tx_len] at hsum
        omega
      | Block info =>
        show s.proposed_tx_pool_len = in_flight_tx_len (fremove s.proposed_in_flight key)
        simp only [item_tx_len] at hsum
        omega
    · rw [if_neg hlk]
      exact hinv

/-- A node state with one `Transactions` batch in flight, used to
instantiate the accounting witness. -/
def sInFlight : ComputeRaftState :=
  { peer_id := 0
    consensused := ComputeConsensused.init 1
    local_tx_pool := []
    local_tx_druid_pool := []
    last_block_stored_infos := []
    proposed_in_flight := [(⟨0, 1⟩, ComputeRaftItem.Transactions [("a", Transaction.new)])]
    proposed_tx_pool_len := 1
    proposed_tx_pool_len_max := 10
    proposed_and_consensused_tx_pool_len_max := 20
    proposed_last_id := 1 }

/-- The committed payload matching the in-flight proposal of
`sInFlight`. -/
def dInFlight : RaftData :=
  some (⟨0, 1⟩, ComputeRaftItem.Transactions [("a", Transaction.new)])

theorem received_commit_in_flight_accounting_witness :
    sInFlight.proposed_tx_pool_len = in_flight_tx_len sInFlight.proposed_in_flight ∧
      (sInFlight.proposed_in_flight.map Prod.fst).Nodup ∧
      (received_commit sInFlight dInFlight).1.proposed_tx_pool_len
        = in_flight_tx_len (received_commit sInFlight dInFlight).1.proposed_in_flight := by
  refine ⟨by decide, by decide, ?_⟩
  apply received_commit_in_flight_accounting sInFlight dInFlight (by decide) (by decide)
  rintro key item it h1 h2
  cases h1
  have h3 : some (ComputeRaftItem.Transactions [("a", Transaction.new)]) = some it := h2
  exact (Option.some.inj h3).symm

/-!  ### Map lemmas for the conservation claim (C8)  -/

theorem mcontains_iff {α : Type} (m : SMap α) (k : String) :
    mcontains m k = true ↔ k ∈ m.map Prod.fst := by
  unfold mcontains
  rw [List.any_eq_true]
  constructor
  · rintro ⟨p, hp, hpe⟩
    exact List.mem_map.mpr ⟨p, hp, beq_iff_eq.mp hpe⟩
  · intro hk
    obtain ⟨p, hp, hpe⟩ := List.mem_map.mp hk
    exact ⟨p, hp, beq_iff_eq.mpr hpe⟩

theorem mem_minsert {α : Type} (k : String) (v : α) :
    ∀ (m : SMap α) (q : String × α), q ∈ minsert k v m → q = (k, v) ∨ q ∈ m := by
  intro m
  induction m with
  | nil =>
    intro q hq
    simp [minsert] at hq
    exact Or.inl hq
  | cons p rest ih =>
    intro q hq
    unfold minsert at hq
    split at hq
    · rcases List.mem_cons.mp hq with h | h
      · exact Or.inl h
      · exact Or.inr h
    · split at hq
      · rcases List.mem_cons.mp hq with h | h
        · exact Or.inl h
        · exact Or.inr (List.mem_cons_of_mem _ h)
      · rcases List.mem_cons.mp hq with h | h
        · exact Or.inr (h ▸ List.mem_cons_self p rest)
        · rcases ih q h with h2 | h2
          · exact Or.inl h2
          · exact Or.inr (List.mem_cons_of_mem _ h2)

theorem mem_keys_minsert {α : Type} (k : String) (v : α) :
    ∀ (m : SMap α) (a : String),
      a ∈ (minsert k v m).map Prod.fst ↔ a = k ∨ a ∈ m.map Prod.fst := by
  intro m
  induction m with
  | nil =>
    intro a
    simp [minsert]
  | cons p rest ih =>
    intro a
    unfold minsert
    by_cases h1 : k < p.1
    · rw [if_pos h1]
      simp only [List.map_cons, List.mem_cons]
    · rw [if_neg h1]
      by_cases h2 : k = p.1
      · rw [if_pos h2]
        simp only [List.map_cons, List.mem_cons]
        rw [h2]
        tauto
      · rw [if_neg h2]
        simp only [List.map_cons, List.mem_cons, ih]
        tauto

theorem mcontains_minsert {α : Type} (k : String) (v : α) (m : SMap α) (a : String) :
    mcontains (minsert k v m) a = (decide (a = k) || mcontains m a) := by
  by_cases h : a = k ∨ a ∈ m.map Prod.fst
  · have h1 : mcontains (minsert k v m) a = true :=
      (mcontains_iff _ _).mpr ((mem_keys_minsert k v m a).mpr h)
    have h2 : (decide (a = k) || mcontains m a) = true := by
      rcases h with h | h
      · simp [h]
      · simp [(mcontains_iff _ _).mpr h]
    rw [h1, h2]
  · push_neg at h
    have h1 : mcontains (minsert k v m) a = false := by
      rw [Bool.eq_false_iff]
      intro hb
      rcases (mem_keys_minsert k v m a).mp ((mcontains_iff _ _).mp hb) with hc | hc
      · exact h.1 hc
      · exact h.2 hc
    have h2 : (decide (a = k) || mcontains m a) = false := by
      rw [Bool.or_eq_false_iff]
      constructor
      · simpa using h.1
      · rw [Bool.eq_false_iff]
        intro hb
        exact h.2 ((mcontains_iff _ _).mp hb)
    rw [h1, h2]

theorem length_minsert {α : Type} (k : String) (v : α) :
    ∀ m : SMap α, MSorted m →
      (minsert k v m).length = if mcontains m k then m.length else m.length + 1 := by
  intro m
  induction m with
  | nil =>
    intro _
    simp [minsert, mcontains]
  | cons p rest ih =>
    intro hs
    obtain ⟨hhead, hrest⟩ := List.pairwise_cons.mp hs
    unfold minsert
    rcases lt_trichotomy k p.1 with hlt | heq | hgt
    · rw [if_pos hlt]
      have hmem : ¬ k ∈ (p :: rest).map Prod.fst := by
        intro hmem
        rw [List.map_cons, List.mem_cons] at hmem
        rcases hmem with h | h
        · exact absurd (h ▸ hlt) (lt_irrefl _)
        · obtain ⟨q, hq, hq1⟩ := List.mem_map.mp h
          have h2 := hhead q hq
          rw [hq1] at h2
          exact absurd (lt_trans hlt h2) (lt_irrefl _)
      have hnc : mcontains (p :: rest) k = false :=
        Bool.eq_false_iff.mpr (fun hb => hmem ((mcontains_iff _ _).mp hb))
      rw [hnc]
      simp
    · rw [if_neg (by rw [heq]; exact lt_irrefl _), if_pos heq]
      have hc : mcontains (p :: rest) k = true := by
        apply (mcontains_iff _ _).mpr
        rw [List.map_cons]
        exact List.mem_cons.mpr (Or.inl heq)
      rw [hc]
      simp
    · rw [if_neg (asymm hgt), if_neg (fun he => absurd (he ▸ hgt) (lt_irrefl _))]
      have hc : mcontains (p :: rest) k = mcontains rest k := by
        unfold mcontains
        rw [List.any_cons]
        have hne : (p.1 == k) = false := by
          rw [beq_eq_false_iff_ne]
          exact ne_of_lt hgt
        rw [hne, Bool.false_or]
      rw [hc, List.length_cons, ih hrest]
      cases hmc : mcontains rest k <;> simp

theorem msorted_minsert {α : Type} (k : String) (v : α) :
    ∀ m : SMap α, MSorted m → MSorted (minsert k v m) := by
  intro m
  induction m with
  | nil =>
    intro _
    simp [minsert]
  | cons p rest ih =>
    intro hs
    obtain ⟨hhead, hrest⟩ := List.pairwise_cons.mp hs
    unfold minsert
    rcases lt_trichotomy k p.1 with hlt | heq | hgt
    · rw [if_pos hlt]
      apply List.Pairwise.cons
      · intro q hq
        rcases List.mem_cons.mp hq with h | h
        · rw [h]
          exact hlt
        · exact lt_trans hlt (hhead q h)
      · exact List.Pairwise.cons hhead hrest
    · rw [if_neg (by rw [heq]; exact lt_irrefl _), if_pos heq]
      apply List.Pairwise.cons
      · intro q hq
        exact heq ▸ hhead q hq
      · exact hrest
    · rw [if_neg (asymm hgt), if_neg (fun he => absurd (he ▸ hgt) (lt_irrefl _))]
      apply List.Pairwise.cons
      · intro q hq
        rcases mem_minsert k v rest q hq with h | h
        · rw [h]
          exact hgt
        · exact hhead q h
      · exact ih hrest

theorem msorted_nodup_keys {α : Type} (m : SMap α) (hs : MSorted m) :
    (m.map Prod.fst).Nodup :=
  List.Pairwise.map Prod.fst (fun _ _ h => ne_of_lt h) hs

theorem mappend_cons {α : Type} (pool : SMap α) (b : String × α) (bs : SMap α) :
    mappend pool (b :: bs) = mappend (minsert b.1 b.2 pool) bs := rfl

theorem length_mappend {α : Type} :
    ∀ (batch pool : SMap α), MSorted pool → MSorted batch →
      (mappend pool batch).length
          + (batch.filter (fun p => mcontains pool p.1)).length
        = pool.length + batch.length := by
  intro batch
  induction batch with
  | nil =>
    intro pool _ _
    simp [mappend]
  | cons b bs ih =>
    intro pool hpool hbatch
    obtain ⟨hb, hbs⟩ := List.pairwise_cons.mp hbatch
    rw [mappend_cons]
    have hpool2 := msorted_minsert b.1 b.2 pool hpool
    have hih := ih (minsert b.1 b.2 pool) hpool2 hbs
    have hfilter : bs.filter (fun p => mcontains (minsert b.1 b.2 pool) p.1)
        = bs.filter (fun p => mcontains pool p.1) := by
      apply List.filter_congr
      intro p hp
      rw [mcontains_minsert]
      have hne : (decide (p.1 = b.1)) = false := by
        simp [ne_of_gt (hb p hp)]
      rw [hne, Bool.false_or]
    rw [hfilter] at hih
    have hlen := length_minsert b.1 b.2 pool hpool
    cases hc : mcontains pool b.1 with
    | true =>
      rw [List.filter_cons_of_pos (by simpa using hc)]
      rw [hc] at hlen
      simp only [if_true] at hlen
      rw [List.length_cons, List.length_cons]
      omega
    | false =>
      rw [List.filter_cons_of_neg (by simp [hc])]
      rw [hc] at hlen
      simp only [Bool.false_eq_true, if_false] at hlen
      rw [List.length_cons]
      omega

theorem mlookup_minsert {α : Type} (k : String) (v : α) :
    ∀ (m : SMap α) (a : String),
      mlookup (minsert k v m) a = if a = k then some v else mlookup m a := by
  intro m
  induction m with
  | nil =>
    intro a
    by_cases h : a = k
    · simp [minsert, mlookup, h]
    · simp [minsert, mlookup, h, Ne.symm h]
  | cons p rest ih =>
    intro a
    unfold minsert
    rcases lt_trichotomy k p.1 with hlt | heq | hgt
    · rw [if_pos hlt]
      by_cases h : a = k
      · rw [mlookup, if_pos h.symm, if_pos h]
      · rw [mlookup, if_neg (fun he => h he.symm), if_neg h]
    · rw [if_neg (by rw [heq]; exact lt_irrefl _), if_pos heq]
      by_cases h : a = k
      · rw [mlookup, if_pos h.symm, if_pos h]
      · rw [mlookup, if_neg (fun he => h he.symm), if_neg h, mlookup,
          if_neg (fun he => h (by rw [← he, heq]))]
    · rw [if_neg (asymm hgt), if_neg (fun he => absurd (he ▸ hgt) (lt_irrefl _))]
      by_cases h : p.1 = a
      · have hak : ¬ a = k := fun he => absurd (h ▸ he ▸ hgt) (lt_irrefl _)
        rw [mlookup, if_pos h, if_neg hak, mlookup, if_pos h]
      · rw [mlookup, if_neg h, ih, mlookup, if_neg h]

theorem mlookup_mappend_of_not_mem {α : Type} :
    ∀ (batch pool : SMap α) (k : String), k ∉ batch.map Prod.fst →
      mlookup (mappend pool batch) k = mlookup pool k := by
  intro batch
  induction batch with
  | nil =>
    intro pool k _
    rfl
  | cons b bs ih =>
    intro pool k hk
    rw [List.map_cons, List.mem_cons] at hk
    push_neg at hk
    rw [mappend_cons, ih _ _ hk.2, mlookup_minsert, if_neg hk.1]

theorem mlookup_mappend_of_mem {α : Type} :
    ∀ (batch pool : SMap α) (k : String) (v : α), (batch.map Prod.fst).Nodup →
      (k, v) ∈ batch → mlookup (mappend pool batch) k = some v := by
  intro batch
  induction batch with
  | nil =>
    intro pool k v _ hm
    cases hm
  | cons b bs ih =>
    intro pool k v hnd hm
    rw [List.map_cons, List.nodup_cons] at hnd
    rw [mappend_cons]
    rcases List.mem_cons.mp hm with h | h
    · have hk : k = b.1 := by rw [← h]
      have hkn : k ∉ bs.map Prod.fst := hk ▸ hnd.1
      rw [mlookup_mappend_of_not_mem bs _ k hkn, mlookup_minsert, if_pos hk, ← h]
    · exact ih _ k v hnd.2 h

/-- Claim C8: a committed `Transactions(map)` item makes
`received_commit` append the batch into `consensused.tx_pool` and
return `Some(CommittedItem::Transactions)`; the pool grows by exactly
the batch size minus the number of batch hashes already present
(present hashes are overwritten with the batch's values, all others
inserted).  Sortedness of the two `BTreeMap`s is the standing
representation invariant of the embedding. -/
theorem received_commit_transactions_spec :
    ∀ (s : ComputeRaftState) (key : ComputeRaftKey) (txs : SMap Transaction),
      MSorted s.consensused.tx_pool → MSorted txs →
      (received_commit s (some (key, ComputeRaftItem.Transactions txs))).2
          = some CommittedItem.Transactions ∧
        (received_commit s (some (key, ComputeRaftItem.Transactions txs))).1.consensused.tx_pool
            = mappend s.consensused.tx_pool txs ∧
        (received_commit s
              (some (key, ComputeRaftItem.Transactions txs))).1.consensused.tx_pool.length
            = s.consensused.tx_pool.length + txs.length
              - (txs.filter (fun p => mcontains s.consensused.tx_pool p.1)).length ∧
        (txs.filter (fun p => mcontains s.consensused.tx_pool p.1)).length ≤ txs.length ∧
        (∀ (k : String) (v : Transaction), (k, v) ∈ txs →
            mlookup (received_commit s
                (some (key, ComputeRaftItem.Transactions txs))).1.consensused.tx_pool k
              = some v) ∧
        (∀ k : String, k ∉ txs.map Prod.fst →
            mlookup (received_commit s
                (some (key, ComputeRaftItem.Transactions txs))).1.consensused.tx_pool k
              = mlookup s.consensused.tx_pool k) := by
  intro s key txs hpool htxs
  have hcs : (received_commit s
      (some (key, ComputeRaftItem.Transactions txs))).1.consensused.tx_pool
      = mappend s.consensused.tx_pool txs := by
    show mappend (commit_in_flight_step s key
        (ComputeRaftItem.Transactions txs)).consensused.tx_pool txs = _
    rw [commit_in_flight_step_consensused]
  have hcount := length_mappend txs s.consensused.tx_pool hpool htxs
  have hle : (txs.filter (fun p => mcontains s.consensused.tx_pool p.1)).length
      ≤ txs.length := List.length_filter_le _ _
  refine ⟨rfl, hcs, ?_, hle, ?_, ?_⟩
  · rw [hcs]
    omega
  · intro k v hm
    rw [hcs]
    exact mlookup_mappend_of_mem txs _ k v (msorted_nodup_keys txs htxs) hm
  · intro k hk
    rw [hcs]
    exact mlookup_mappend_of_not_mem txs _ k hk

/-- A node state whose consensused pool holds one transaction, used to
instantiate the conservation witness. -/
def sTxPool : ComputeRaftState :=
  { peer_id := 0
    consensused := { ComputeConsensused.init 1 with
                       tx_pool := [("b", Transaction.new)]
                       tx_current_block_num := some 0 }
    local_tx_pool := []
    local_tx_druid_pool := []
    last_block_stored_infos := []
    proposed_in_flight := []
    proposed_tx_pool_len := 0
    proposed_tx_pool_len_max := 10
    proposed_and_consensused_tx_pool_len_max := 20
    proposed_last_id := 0 }

/-- A two-entry batch, one hash colliding with the pool of `sTxPool`. -/
def txsBatch : SMap Transaction := [("a", Transaction.new), ("b", ⟨["x"]⟩)]

theorem received_commit_transactions_spec_witness :
    MSorted sTxPool.consensused.tx_pool ∧ MSorted txsBatch ∧
      (received_commit sTxPool (some (⟨0, 1⟩, ComputeRaftItem.Transactions txsBatch))).2
          = some CommittedItem.Transactions ∧
        (received_commit sTxPool
              (some (⟨0, 1⟩, ComputeRaftItem.Transactions txsBatch))).1.consensused.tx_pool
            = mappend sTxPool.consensused.tx_pool txsBatch ∧
        (received_commit sTxPool
              (some (⟨0, 1⟩, ComputeRaftItem.Transactions txsBatch))).1.consensused.tx_pool.length
            = sTxPool.consensused.tx_pool.length + txsBatch.length
              - (txsBatch.filter (fun p => mcontains sTxPool.consensused.tx_pool p.1)).length ∧
        (txsBatch.filter (fun p => mcontains sTxPool.consensused.tx_pool p.1)).length
            ≤ txsBatch.length ∧
        (∀ (k : String) (v : Transaction), (k, v) ∈ txsBatch →
            mlookup (received_commit sTxPool
                (some (⟨0, 1⟩, ComputeRaftItem.Transactions txsBatch))).1.consensused.tx_pool k
              = some v) ∧
        (∀ k : String, k ∉ txsBatch.map Prod.fst →
            mlookup (received_commit sTxPool
                (some (⟨0, 1⟩, ComputeRaftItem.Transactions txsBatch))).1.consensused.tx_pool k
              = mlookup sTxPool.consensused.tx_pool k) :=
  ⟨by decide, by simp [txsBatch, String.lt_iff_toList_lt]; decide,
    received_commit_transactions_spec sTxPool ⟨0, 1⟩ txsBatch (by decide)
      (by simp [txsBatch, String.lt_iff_toList_lt]; decide)⟩

/-!  ### `take_first_n` and the local-propose claim (C5)  -/

theorem take_first_n_eq {α : Type} :
    ∀ (m : SMap α) (n : Nat), MSorted m → take_first_n n m = (m.take n, m.drop n) := by
  intro m
  induction m with
  | nil =>
    intro n _
    simp [take_first_n]
  | cons p rest ih =>
    intro n hs
    obtain ⟨hhead, hrest⟩ := List.pairwise_cons.mp hs
    cases n with
    | zero =>
      simp only [take_first_n, List.map_cons, List.get?_cons_zero]
      have h1 : (p :: rest).filter (fun q => decide (q.1 < p.1)) = [] := by
        apply List.filter_eq_nil_iff.mpr
        intro q hq
        rcases List.mem_cons.mp hq with h | h
        · simp [h]
        · simp [asymm (hhead q h)]
      have h2 : (p :: rest).filter (fun q => !(decide (q.1 < p.1))) = p :: rest := by
        apply List.filter_eq_self.mpr
        intro q hq
        rcases List.mem_cons.mp hq with h | h
        · simp [h]
        · simp [asymm (hhead q h)]
      rw [h1, h2]
      rfl
    | succ n1 =>
      simp only [take_first_n, List.map_cons, List.get?_cons_succ]
      cases hres : (rest.map Prod.fst).get? n1 with
      | none =>
        have hlen : rest.length ≤ n1 := by
          have h := List.get?_eq_none.mp hres
          simpa using h
        have h1 : (p :: rest).take (n1 + 1) = p :: rest :=
          List.take_of_length_le (by simpa using Nat.succ_le_succ hlen)
        have h2 : (p :: rest).drop (n1 + 1) = [] :=
          List.drop_eq_nil_of_le (by simpa using Nat.succ_le_succ hlen)
        rw [h1, h2]
      | some mk =>
        have hmk : mk ∈ rest.map Prod.fst := List.get?_mem hres
        have hpmk : p.1 < mk := by
          obtain ⟨q, hq, hq1⟩ := List.mem_map.mp hmk
          exact hq1 ▸ hhead q hq
        have hih := ih n1 hrest
        simp only [take_first_n, hres] at hih
        have hih1 := congrArg Prod.fst hih
        have hih2 := congrArg Prod.snd hih
        simp only at hih1 hih2
        show (List.filter (fun q => decide (q.1 < mk)) (p :: rest),
              List.filter (fun q => !(decide (q.1 < mk))) (p :: rest))
            = ((p :: rest).take (n1 + 1), (p :: rest).drop (n1 + 1))
        have hf1 : List.filter (fun q : String × α => decide (q.1 < mk)) (p :: rest)
            = p :: List.filter (fun q : String × α => decide (q.1 < mk)) rest := by
          rw [List.filter_cons]
          simp only [decide_eq_true_eq]
          rw [if_pos hpmk]
        have hf2 : List.filter (fun q : String × α => !(decide (q.1 < mk))) (p :: rest)
            = List.filter (fun q : String × α => !(decide (q.1 < mk))) rest := by
          rw [List.filter_cons]
          simp only [Bool.not_eq_true', decide_eq_false_iff_not]
          rw [if_neg (not_not_intro hpmk)]
        rw [hf1, hf2, hih1, hih2, List.take_succ_cons, List.drop_succ_cons]

/-- Claim C5: `propose_local_transactions_at_timeout` takes exactly the
first `n` entries, in ascending key order, of `local_tx_pool`, where
`n = min(max_add, proposed_tx_pool_len_max)` and `max_add` is
`proposed_and_consensused_tx_pool_len_max` minus
`proposed_tx_pool_len + len(consensused.tx_pool)` floored at zero
(`saturating_sub`, the `Nat` subtraction); the taken entries (all of the
pool when it holds fewer than `n`, witnessed by the
`min`-length equation) are removed from `local_tx_pool`,
`proposed_tx_pool_len` grows by the number taken, and the batch is
proposed as a `Transactions` item via `propose_item`; when the taken
set is empty no proposal is made.  The in-flight caps of a fresh node
derive from `BLOCK_SIZE_IN_TX`: `proposed_tx_pool_len_max =
BLOCK_SIZE_IN_TX / N` and `proposed_and_consensused_tx_pool_len_max =
BLOCK_SIZE_IN_TX * 2`. -/
theorem propose_local_transactions_spec :
    (∀ s : ComputeRaftState, MSorted s.local_tx_pool →
      ∀ n : Nat,
        n = min (s.proposed_and_consensused_tx_pool_len_max
            - (s.proposed_tx_pool_len + s.consensused.tx_pool.length))
          s.proposed_tx_pool_len_max →
        propose_local_transactions_at_timeout s =
            (if (s.local_tx_pool.take n).isEmpty then
              { s with local_tx_pool := s.local_tx_pool.drop n }
            else
              propose_item
                { s with
                    local_tx_pool := s.local_tx_pool.drop n
                    proposed_tx_pool_len :=
                      s.proposed_tx_pool_len + (s.local_tx_pool.take n).length }
                (ComputeRaftItem.Transactions (s.local_tx_pool.take n))) ∧
          (s.local_tx_pool.take n).length = min n s.local_tx_pool.length) ∧
    (∀ (peerId peersLen blockSizeInTx : Nat) (seedUtxo : List String),
        (ComputeRaftState.init peerId peersLen blockSizeInTx seedUtxo).proposed_tx_pool_len_max
            = blockSizeInTx / peersLen ∧
          (ComputeRaftState.init peerId peersLen blockSizeInTx
                seedUtxo).proposed_and_consensused_tx_pool_len_max
            = blockSizeInTx * 2) := by
  constructor
  · intro s hs n hn
    constructor
    · subst hn
      unfold propose_local_transactions_at_timeout
      simp only [take_first_n_eq _ _ hs]
    · exact List.length_take _ _
  · intro peerId peersLen blockSizeInTx seedUtxo
    exact ⟨rfl, rfl⟩

/-- A node state with two stageable local transactions and caps allowing
one per proposal, used to instantiate the local-propose witness. -/
def sPropose : ComputeRaftState :=
  { peer_id := 0
    consensused := ComputeConsensused.init 1
    local_tx_pool := [("a", Transaction.new), ("b", Transaction.new)]
    local_tx_druid_pool := []
    last_block_stored_infos := []
    proposed_in_flight := []
    proposed_tx_pool_len := 0
    proposed_tx_pool_len_max := 1
    proposed_and_consensused_tx_pool_len_max := 20
    proposed_last_id := 0 }

theorem propose_local_transactions_spec_witness :
    MSorted sPropose.local_tx_pool ∧
      1 = min (sPropose.proposed_and_consensused_tx_pool_len_max
          - (sPropose.proposed_tx_pool_len + sPropose.consensused.tx_pool.length))
        sPropose.proposed_tx_pool_len_max ∧
      (propose_local_transactions_at_timeout sPropose =
          (if (sPropose.local_tx_pool.take 1).isEmpty then
            { sPropose with local_tx_pool := sPropose.local_tx_pool.drop 1 }
          else
            propose_item
              { sPropose with
                  local_tx_pool := sPropose.local_tx_pool.drop 1
                  proposed_tx_pool_len :=
                    sPropose.proposed_tx_pool_len + (sPropose.local_tx_pool.take 1).length }
              (ComputeRaftItem.Transactions (sPropose.local_tx_pool.take 1))) ∧
        (sPropose.local_tx_pool.take 1).length = min 1 sPropose.local_tx_pool.length) := by
  refine ⟨?_, by decide, ?_⟩
  · simp [sPropose, String.lt_iff_toList_lt]
    decide
  · apply propose_local_transactions_spec.1 sPropose
    · simp [sPropose, String.lt_iff_toList_lt]
      decide
    · decide

/-- Claim C7: a committed byte sequence that does not deserialize as a
`(ComputeRaftKey, ComputeRaftItem)` pair (embedded as the `none`
payload) makes `received_commit` return `None` and leave the entire node
state — consensused state, local pools, `proposed_in_flight` and
`proposed_tx_pool_len` — unchanged. -/
theorem received_commit_deserialize_failure :
    ∀ s : ComputeRaftState, received_commit s none = (s, none) := by
  intro s
  rfl

end ComputeRaftModel
